import Mathlib

/-!
# Verification of the OnHttpResp caching HTTP retrieval layer

Shallow embedding of the repository's two core modules:

* `onhttpreq/cache.py` — the persistent cache engine (`HTTPCache`): the
  `content_cache` row model, `get`, `set` (strict insert with
  collision-handling upsert fallback), `merge` with conflict modes, and
  `get_info` aggregates.
* `onhttpreq/http_req.py` — the request orchestrator (`HTTPReq`): the
  bounded-retry fetch loop, the `on_response` hook protocol
  (`_process_on_response`), and constructor cache wiring.

Modelling conventions:

* byte strings are `List Nat`;
* UTC timestamps are `Nat` (only their linear order and addition matter);
* the SQLite table backing one cache file is a `List HTTPCacheContent`
  (rows in insertion order; primary-key/unique enforcement is modelled by
  the collision checks the code itself performs and by well-formedness
  hypotheses on theorems);
* Python exceptions are `Except` errors;
* the transport (`requests.get`) is an injected function from attempt
  number to an optional response, `none` modelling a timeout.
-/

namespace OnHttpResp

/-- Byte strings (Python `bytes`). -/
abbrev Bytes := List Nat

/-- Modelled from the spec: the bz2 codec is an external injected
`Compress`/`Decompress` pair of byte-stream transformations (spec §1
"OUT OF SCOPE ... on-disk compression codec"), with decompression a left
inverse of compression.  It is modelled as a length-prefixed identity
coding, which keeps compressed blobs distinct from raw ones. -/
def bz2compress (b : Bytes) : Bytes := b.length :: b

/-- Modelled from the spec: inverse of `bz2compress` (see there). -/
def bz2decompress (b : Bytes) : Bytes := b.tail

/-- One row of the `content_cache` table (class `HTTPCacheContent`,
cache.py lines 36-54): primary-key `url`, nullable unique alternate
`key`, `cached_on` timestamp, the two nullable payload columns `content`
and `content_bzip2`, and the nullable `expire_on_dt` timestamp. -/
structure HTTPCacheContent where
  url : String
  key : Option String
  cached_on : Nat
  content : Option Bytes
  content_bzip2 : Option Bytes
  expire_on_dt : Option Nat
deriving DecidableEq, Repr

/-- The rows of one cache database, in insertion order. -/
abbrev CacheState := List HTTPCacheContent

/-- `CacheIdentType` (cache.py line 92): lookup either by `url` or by the
alternate `key`. -/
inductive CacheIdentType where
  | url
  | key
deriving DecidableEq, Repr

/-- The per-open-handle flags of `HTTPCache.__init__` that affect
read/write semantics: `dont_expire` and `store_as_compressed`. -/
structure CacheConfig where
  dont_expire : Bool
  store_as_compressed : Bool
deriving DecidableEq, Repr

/-- The row predicate built by `get`/`get_expiration`/... (cache.py lines
305-309): match on `url == ident` or on `key == ident` depending on the
ident type. -/
def identCond (identType : CacheIdentType) (ident : String) (r : HTTPCacheContent) : Bool :=
  match identType with
  | .url => r.url = ident
  | .key => r.key = some ident

/-- Errors `HTTPCache.get` can raise: `one_or_none` raising
`MultipleResultsFound` on a corrupted table, and the
`assert cache_result.content_bzip2 is not None` failing on a row with
neither payload column populated. -/
inductive CacheGetError where
  | multipleResultsFound
  | assertionError
deriving DecidableEq, Repr

/-- `HTTPCache.get` (cache.py lines 300-337).  `now` is the value of
`datetime.now(UTC)` at the time of the call.  Returns `ok none` when the
ident is absent or (with expiration checking enabled) the row's
`expire_on_dt` is strictly before `now`; otherwise returns the `content`
column if populated, else decompresses `content_bzip2`. -/
def HTTPCache.get (cfg : CacheConfig) (s : CacheState) (now : Nat) (ident : String)
    (identType : CacheIdentType := .url) : Except CacheGetError (Option Bytes) :=
  match s.filter (identCond identType ident) with
  | [] => .ok none
  | [r] =>
    if !cfg.dont_expire && (match r.expire_on_dt with | some t => decide (t < now) | none => false) then
      .ok none
    else
      match r.content with
      | some c => .ok (some c)
      | none =>
        match r.content_bzip2 with
        | some b => .ok (some (bz2decompress b))
        | none => .error .assertionError
  | _ :: _ :: _ => .error .multipleResultsFound

/-- Errors raised by `HTTPCache.set`: the
`assert not (expire_on_dt is not None and expire_time_delta is not None)`
contract check, and `CacheURLNotFound` from the collision-recovery path
(cache.py lines 426-441). -/
inductive CacheSetError where
  | assertionError
  | cacheURLNotFound (url : String) (cache_key : Option String)
deriving DecidableEq, Repr

/-- The payload columns a `set` call writes, per `store_as_compressed`
(cache.py lines 390-394): compressed mode populates only `content_bzip2`,
uncompressed mode only `content`. -/
def setPayload (compressed : Bool) (content : Bytes) :
    Option Bytes × Option Bytes :=
  if compressed then (none, some (bz2compress content))
  else (some content, none)

/-- The in-place overwrite performed by `set` after a collision
(cache.py lines 443-449): update `cached_on` (to the override or now) and
`expire_on_dt`, and write the payload column of the *current* compression
mode, leaving the other payload column and the identity fields `url` and
`key` untouched. -/
def overwriteRow (compressed : Bool) (content : Bytes) (expire : Option Nat)
    (cachedOn : Nat) (r : HTTPCacheContent) : HTTPCacheContent :=
  { r with
    cached_on := cachedOn
    expire_on_dt := expire
    content := if compressed then r.content else some content
    content_bzip2 := if compressed then some (bz2compress content) else r.content_bzip2 }

/-- `HTTPCache.set` (cache.py lines 372-453).  `now` stands for
`datetime.now(UTC)` / the DB's `func.now()` at call time.  Attempts a
strict insert of a fresh row; on a unique-constraint collision (matching
`url`, or non-null matching `key`) rolls back and overwrites the existing
row located by `url`, falling back to lookup by `cache_key`; raises
`CacheURLNotFound` if neither lookup finds a row after a collision. -/
def HTTPCache.set (cfg : CacheConfig) (now : Nat) (s : CacheState) (url : String)
    (content : Bytes) (expire_on_dt : Option Nat := none)
    (expire_time_delta : Option Nat := none) (cached_on : Option Nat := none)
    (cache_key : Option String := none) : Except CacheSetError CacheState :=
  if expire_on_dt.isSome && expire_time_delta.isSome then .error .assertionError
  else
    let expire : Option Nat :=
      match expire_on_dt, expire_time_delta with
      | none, some d => some (now + d)
      | e, _ => e
    let payload := setPayload cfg.store_as_compressed content
    let newRow : HTTPCacheContent :=
      { url := url
        key := cache_key
        cached_on := cached_on.getD now
        content := payload.1
        content_bzip2 := payload.2
        expire_on_dt := expire }
    let urlCollision := s.any (fun r => r.url = url)
    let keyCollision := cache_key.isSome && s.any (fun r => r.key = cache_key)
    if urlCollision || keyCollision then
      -- IntegrityError caught, session rolled back; locate the existing row
      -- preferring the url match, falling back to the cache_key match.  The
      -- Python mutates the single row found by `one_or_none`; under the
      -- primary-key/unique constraints at most one row matches, so updating
      -- every matching row is the same operation.
      match s.find? (fun r => r.url = url) with
      | some _ =>
        .ok (s.map (fun r =>
          if r.url = url then overwriteRow cfg.store_as_compressed content expire (cached_on.getD now) r
          else r))
      | none =>
        match cache_key with
        | none => .error (.cacheURLNotFound url cache_key)
        | some _ =>
          match s.find? (fun r => r.key = cache_key) with
          | some _ =>
            .ok (s.map (fun r =>
              if r.key = cache_key then overwriteRow cfg.store_as_compressed content expire (cached_on.getD now) r
              else r))
          | none => .error (.cacheURLNotFound url cache_key)
    else
      .ok (s ++ [newRow])

/-- The merge conflict modes (cache.py lines 28-30).  `HTTPCache.merge`
first validates its `conflict_mode` argument against exactly this set and
raises `ValueError` otherwise; the closed inductive type makes that check
vacuous here. -/
inductive ConflictMode where
  | fail
  | skip
  | overwrite
deriving DecidableEq, Repr

/-- SQLAlchemy `session.merge(hcc)` against the destination session
(cache.py line 292): if a row with the same primary key `url` already
exists, replace its column state with the incoming row's; otherwise
insert the incoming row. -/
def sessionMerge (pending : CacheState) (hcc : HTTPCacheContent) : CacheState :=
  if pending.any (fun r => r.url = hcc.url) then
    pending.map (fun r => if r.url = hcc.url then hcc else r)
  else
    pending ++ [hcc]

/-- The loop body of `HTTPCache.merge` (cache.py lines 275-292), executed
against the destination session's pending (uncommitted) state.  For each
source row, its url is first appended to `urls`; then, if a row with that
url already exists, the url is recorded as a conflict and the mode
decides: `fail` raises `CacheMergeConflict`, `skip` moves on without
writing, `overwrite` (like no conflict) writes via `sessionMerge`.
Accumulators are kept reversed and flipped on normal exit. -/
def mergeLoop (mode : ConflictMode) :
    List HTTPCacheContent → CacheState → List String → List String →
    Except String (CacheState × List String × List String)
  | [], pending, urls, conflicts => .ok (pending, urls.reverse, conflicts.reverse)
  | hcc :: rest, pending, urls, conflicts =>
    let urls := hcc.url :: urls
    if pending.any (fun r => r.url = hcc.url) then
      let conflicts := hcc.url :: conflicts
      match mode with
      | .fail => .error ("URL '" ++ hcc.url ++ "' already exists")
      | .skip => mergeLoop mode rest pending urls conflicts
      | .overwrite => mergeLoop mode rest (sessionMerge pending hcc) urls conflicts
    else
      mergeLoop mode rest (sessionMerge pending hcc) urls conflicts

/-- Result of one `merge` run: the committed destination state, and
either the returned `(merged urls, conflict urls)` pair or the raised
`CacheMergeConflict` message. -/
structure MergeResult where
  committed : CacheState
  outcome : Except String (List String × List String)
deriving Repr

/-- `HTTPCache.merge` (cache.py lines 253-298).  `session.commit()` runs
only after the loop finishes; when the loop raises (`fail` mode hitting a
conflict) the `finally` block closes the session without committing, so
the destination keeps its pre-merge state. -/
def HTTPCache.merge (s : CacheState) (src : CacheState) (mode : ConflictMode) :
    MergeResult :=
  match mergeLoop mode src s [] [] with
  | .ok (pending, urls, conflicts) => ⟨pending, .ok (urls, conflicts)⟩
  | .error e => ⟨s, .error e⟩

/-- The value returned by `HTTPCache.get_info` (cache.py lines 154-203).
SQL aggregates over an empty set are NULL: `min`/`max`/`sum` are
`Option`-valued.  The code replaces a NULL `n_not_compressed` and a NULL
`n_compressed` by 0 (lines 195-198) so those two are plain `Nat`, but no
such replacement is applied to `n_expirable`, which therefore stays
`Option Nat`. -/
structure CacheInfo where
  n : Nat
  earliest_dt : Option Nat
  latest_dt : Option Nat
  n_expirable : Option Nat
  n_not_compressed : Nat
  n_compressed : Nat
deriving DecidableEq, Repr

/-- The `key_glob` argument of `get_info`: omitted, the `HTTPCache.NULL`
sentinel selecting rows with no key, or a glob pattern on the key. -/
inductive KeyGlob where
  | nullSentinel
  | pattern (g : String)
deriving DecidableEq, Repr

/-- The conjunction of filters `get_info` builds (cache.py lines
161-173): optional GLOB on `url`, optional key filter (IS NULL for the
sentinel, GLOB otherwise — NULL keys never match a GLOB), and an optional
`cached_on` range, inclusive of the start and exclusive of the end.
`globMatch` is the SQLite GLOB operator, an injected capability of the
out-of-scope SQL engine (spec §1). -/
def rowMatches (globMatch : String → String → Bool) (url_glob : Option String)
    (key_glob : Option KeyGlob) (dt_range : Option (Option Nat × Option Nat))
    (r : HTTPCacheContent) : Bool :=
  (match url_glob with
   | none => true
   | some g => globMatch g r.url) &&
  (match key_glob with
   | none => true
   | some .nullSentinel => r.key.isNone
   | some (.pattern g) => (match r.key with | none => false | some k => globMatch g k)) &&
  (match dt_range with
   | none => true
   | some (lo, hi) =>
     (match lo with | none => true | some a => decide (a ≤ r.cached_on)) &&
     (match hi with | none => true | some b => decide (r.cached_on < b)))

/-- SQL `SUM(CASE WHEN cond THEN 1 ELSE 0 END)` over a row set: NULL on
the empty set, otherwise the count of rows satisfying the condition. -/
def sqlSumCase (rows : List HTTPCacheContent) (cond : HTTPCacheContent → Bool) :
    Option Nat :=
  match rows with
  | [] => none
  | _ :: _ => some (rows.countP cond)

/-- `HTTPCache.get_info` (cache.py lines 154-203): `n` from
`COUNT(url)`, `earliest_dt`/`latest_dt` from `MIN`/`MAX(cached_on)`,
and the three conditional sums, with the None-to-0 fixup applied only to
`n_not_compressed` and `n_compressed`. -/
def HTTPCache.get_info (globMatch : String → String → Bool) (s : CacheState)
    (url_glob : Option String := none) (key_glob : Option KeyGlob := none)
    (dt_range : Option (Option Nat × Option Nat) := none) : CacheInfo :=
  let rows := s.filter (rowMatches globMatch url_glob key_glob dt_range)
  { n := rows.length
    earliest_dt := (rows.map (fun r => r.cached_on)).min?
    latest_dt := (rows.map (fun r => r.cached_on)).max?
    n_expirable := sqlSumCase rows (fun r => r.expire_on_dt.isSome)
    n_not_compressed := (sqlSumCase rows (fun r => r.content.isSome)).getD 0
    n_compressed := (sqlSumCase rows (fun r => r.content_bzip2.isSome)).getD 0 }

/-! ## The request orchestrator (`onhttpreq/http_req.py`) -/

/-- An HTTP response as seen by `HTTPReq.get`: its status code and body.
A timed-out attempt produces no response at all (`r = None` in the code),
modelled as `Option HTTPResp = none` at the use sites. -/
structure HTTPResp where
  status : Nat
  body : Bytes
deriving DecidableEq, Repr

/-- The argument dictionary of an `on_response` command:
`{'reason': ..., 'duration': ...}` as consumed by `HTTPReq._wait` and
stored by the `ON_RESPONSE_RETURN_WAIT` branch. -/
structure HookArgs where
  reason : Option String
  duration : Nat
deriving DecidableEq, Repr

/-- What the caller-supplied `on_response` hook returns: `None`, or a
`(cmd, args_dict)` tuple whose first element is a command string
(http_req.py lines 203-204 define exactly `ON_RESPONSE_WAIT_RETRY =
"wait_retry"` and `ON_RESPONSE_RETURN_WAIT = "return_wait"`; no other
command constant exists in the module). -/
abbrev HookResult := Option (String × HookArgs)

/-- The `ValueError` raised by `_process_on_response` for a hook return
whose command string is not recognized: "on_response returned an unknown
command. {res}". -/
inductive HookError where
  | unknownCommand (res : String × HookArgs)
deriving DecidableEq, Repr

/-- The mutable orchestrator state the fetch loop touches: the attempt
counter `self.__tries` (mirrored by the `http_requests` counter, which
increments in lock step with it), the pending `self._return_wait_cmd`,
and the record of `self._wait` calls performed (the wait durations slept;
the wall-clock sleeping itself is untracked). -/
structure FetchState where
  tries : Nat
  return_wait_cmd : Option HookArgs
  waits : List HookArgs
deriving DecidableEq, Repr

/-- `HTTPReq._process_on_response` (http_req.py lines 330-349) applied to
the value `res` the hook returned.  `None` accepts the response (break
the loop).  `("wait_retry", args)` waits only if another attempt remains
(`self.__tries < self._retries + 1`) and continues the loop.
`("return_wait", args)` records the pending wait and breaks.  Any other
command string — there is no `ON_RESPONSE_FAIL` in the module — raises
`ValueError`.  Returns (break?, updated state). -/
def processOnResponse (tries retries : Nat) (res : HookResult) (st : FetchState) :
    Except HookError (Bool × FetchState) :=
  match res with
  | none => .ok (true, st)
  | some (cmd, args) =>
    if cmd = "wait_retry" then
      if tries < retries + 1 then
        .ok (false, { st with waits := st.waits ++ [args] })
      else
        .ok (false, st)
    else if cmd = "return_wait" then
      .ok (true, { st with return_wait_cmd := some args })
    else
      .error (.unknownCommand (cmd, args))

/-- The retry loop of `HTTPReq.get` (http_req.py lines 406-432):
`while self.__tries < self._retries + 1`, each iteration incrementing
`self.__tries` and `self.http_requests`, performing one transport call
(`transport t` is attempt `t`; `none` models `requests.exceptions.Timeout`
setting `r = None`), then consulting the hook if one is configured (a
`ValueError` from `_process_on_response` propagates out), else breaking
on a status-200 response.  `remaining` is the number of loop iterations
the `while` condition still allows; the `0` base case (loop body never
entered, `r` left unbound) is unreachable from `HTTPReq.getFromWeb`,
which starts with `remaining = retries + 1 ≥ 1`. -/
def fetchLoop (retries : Nat) (transport : Nat → Option HTTPResp)
    (on_response : Option (Option HTTPResp → HookResult)) :
    (remaining : Nat) → FetchState → Except HookError (FetchState × Option HTTPResp)
  | 0, st => .ok (st, none)
  | remaining + 1, st =>
    let tries := st.tries + 1
    let r := transport tries
    match on_response with
    | some hook =>
      match processOnResponse tries retries (hook r) { st with tries := tries } with
      | .error e => .error e
      | .ok (brk, st1) =>
        if brk then .ok (st1, r)
        else if remaining = 0 then .ok (st1, r)
        else fetchLoop retries transport on_response remaining st1
    | none =>
      let st1 := { st with tries := tries }
      if (match r with | some resp => resp.status == 200 | none => false) then
        .ok (st1, r)
      else if remaining = 0 then .ok (st1, r)
      else fetchLoop retries transport on_response remaining st1

/-- What `self.error_skips.append(...)` records when the final response
is absent or non-success: the response itself, or the literal marker
string "No response, timedout" when the last attempt got no response. -/
inductive SkipEntry where
  | resp (r : HTTPResp)
  | timedOutMarker
deriving DecidableEq, Repr

/-- The payload of the raised `HTTPReqError` together with the error
bookkeeping of the resolution step (http_req.py lines 437-449): the url
and the attempt count written into the message
`"Failed to retrieve '{url}' after {self.__tries + 1} attempts"`, the
`http_response` attached to the exception, and the `error_skips`
entry. -/
structure HTTPReqErrorData where
  url : String
  attemptsInMsg : Nat
  http_resp : Option HTTPResp
  skip : SkipEntry
deriving DecidableEq, Repr

/-- An exception escaping `HTTPReq.get` on the web path: the
`ValueError` propagated from `_process_on_response`, or the
`HTTPReqError` raised when the final response is absent or
non-success. -/
inductive WebGetError where
  | valueError (e : HookError)
  | httpReqError (d : HTTPReqErrorData)
deriving DecidableEq, Repr

/-- The cache-miss (web) path of `HTTPReq.get` (http_req.py lines
406-449): run the fetch loop from `self.__tries = 0` with
`retries + 1` permitted iterations, then resolve: if the final `r` is
`None` or has non-200 status, raise `HTTPReqError` whose message names
the url and `self.__tries + 1` as the attempt count and whose
`error_skips` entry is the response or the timed-out marker; otherwise
return the response (which the caller then writes to the cache) together
with the final loop state. -/
def HTTPReq.getFromWeb (retries : Nat) (transport : Nat → Option HTTPResp)
    (on_response : Option (Option HTTPResp → HookResult)) (url : String) :
    Except WebGetError (HTTPResp × FetchState) :=
  match fetchLoop retries transport on_response (retries + 1) ⟨0, none, []⟩ with
  | .error e => .error (.valueError e)
  | .ok (st, r) =>
    match r with
    | none => .error (.httpReqError ⟨url, st.tries + 1, none, .timedOutMarker⟩)
    | some resp =>
      if resp.status ≠ 200 then
        .error (.httpReqError ⟨url, st.tries + 1, some resp, .resp resp⟩)
      else
        .ok (resp, st)

/-- Number of transport attempts (`requests.get` calls, equivalently
`self.http_requests` increments) one `HTTPReq.get` web path performs. -/
def HTTPReq.attemptsMade (retries : Nat) (transport : Nat → Option HTTPResp)
    (on_response : Option (Option HTTPResp → HookResult)) : Nat :=
  match fetchLoop retries transport on_response (retries + 1) ⟨0, none, []⟩ with
  | .error _ => 0
  | .ok (st, _) => st.tries

/-- `CURRENT_CACHE_DB_VERSION` (http_req.py line 24). -/
def CURRENT_CACHE_DB_VERSION : Nat := 1

/-- The slice of the internal `_HTTPCache` object (http_req.py lines
48-71) that `HTTPReq.__init__` inspects.  `fsIsFile`/`fsVersion` inject
the filesystem: whether a cache file already exists at a path and, if
so, the schema version its `pragma user_version` reports; a created
cache (no filename, or no file at the path) is stamped with the current
version. -/
structure HTTPCacheHandle where
  filename : Option String
  dont_expire : Bool
  store_as_compressed : Bool
  version : Nat
deriving DecidableEq, Repr

/-- `_HTTPCache.__init__` (http_req.py lines 52-71). -/
def mkInternalCache (fsIsFile : String → Bool) (fsVersion : String → Nat)
    (filename : Option String) (dont_expire store_as_compressed : Bool) :
    HTTPCacheHandle :=
  { filename := filename
    dont_expire := dont_expire
    store_as_compressed := store_as_compressed
    version :=
      match filename with
      | none => CURRENT_CACHE_DB_VERSION
      | some f => if fsIsFile f then fsVersion f else CURRENT_CACHE_DB_VERSION }

/-- The `cache_migrate` constructor option: `True`, `False`, or the
string `'PROMPT'`. -/
inductive CacheMigrateOpt where
  | yes
  | no
  | prompt
deriving DecidableEq, Repr

/-- The constructor arguments of `HTTPReq.__init__` (http_req.py lines
208-213) that participate in cache wiring.  Defaults as in the source. -/
structure HTTPReqConfig where
  http_retries : Nat := 2
  cache_migrate : CacheMigrateOpt := .no
  cache_filename : Option String := none
  cache_in_memory : Bool := false
  cache_overwrite : Bool := false
  cache_dont_expire : Bool := false
  compression : Bool := false
  cache_only : Bool := false
deriving DecidableEq, Repr

/-- An exception escaping `HTTPReq.__init__`: one of the three `assert`
statements, the `AttributeError` from evaluating `self._cache.version`
when `self._cache is None`, the `NotImplementedError` raised by
`bring_up_to_date` for any out-of-date version, or `CacheOutOfDate`. -/
inductive HTTPReqInitError where
  | assertionError (msg : String)
  | attributeErrorNoneVersion
  | notImplementedError
  | cacheOutOfDate (found expected : Nat)
deriving DecidableEq, Repr

/-- A successfully constructed orchestrator (the fields of `self` that
later calls read). -/
structure HTTPReqState where
  cache : Option HTTPCacheHandle
  cache_overwrite : Bool
  cache_filename : Option String
  cache_only : Bool
  retries : Nat
deriving DecidableEq, Repr

/-- `HTTPReq.__init__` (http_req.py lines 207-286): the three asserts in
source order; construction of `self._cache` only when a cache filename
is given or `cache_in_memory` is set, `None` otherwise; then the
unconditional read of `self._cache.version` (line 257) — an
`AttributeError` when `self._cache` is `None` — followed by the
out-of-date handling (`'PROMPT'` resolves via the injected user answer;
`bring_up_to_date` raises `NotImplementedError` for every non-current
version, since `_migrate_from_0_to_1` is unimplemented). -/
def HTTPReq.init (fsIsFile : String → Bool) (fsVersion : String → Nat)
    (promptYes : Bool) (cfg : HTTPReqConfig) : Except HTTPReqInitError HTTPReqState :=
  if cfg.cache_filename.isSome && cfg.cache_in_memory then
    .error (.assertionError "caching can't both be in memory and to a file")
  else if cfg.cache_only && !cfg.cache_dont_expire then
    .error (.assertionError "cache_dont_expire must be Truw if cache_only is True")
  else if cfg.cache_filename.isNone && cfg.cache_only then
    .error (.assertionError
      "cache_only + no cache_filename means there is no chance of getting results")
  else
    let cache : Option HTTPCacheHandle :=
      if cfg.cache_filename.isSome || cfg.cache_in_memory then
        some (mkInternalCache fsIsFile fsVersion cfg.cache_filename
          cfg.cache_dont_expire cfg.compression)
      else
        none
    match cache with
    | none => .error .attributeErrorNoneVersion
    | some c =>
      if c.version ≠ CURRENT_CACHE_DB_VERSION then
        let migrateFlag : Bool :=
          match cfg.cache_migrate with
          | .yes => true
          | .no => false
          | .prompt => promptYes
        if migrateFlag then
          .error .notImplementedError
        else
          .error (.cacheOutOfDate c.version CURRENT_CACHE_DB_VERSION)
      else
        .ok
          { cache := some c
            cache_overwrite := cfg.cache_overwrite
            cache_filename := cfg.cache_filename
            cache_only := cfg.cache_only
            retries := cfg.http_retries }

/-! ## Invariant predicates and concrete fixtures -/

/-- The payload columns of a row agree with compression mode `m`: under
compression only `content_bzip2` is populated, otherwise only
`content`.  This is the state every row reaches when all writes to the
store happen through handles of one fixed compression mode. -/
def modeConsistent (m : Bool) (r : HTTPCacheContent) : Prop :=
  if m then r.content = none ∧ r.content_bzip2.isSome
  else r.content.isSome ∧ r.content_bzip2 = none

/-- Exactly one of the two payload fields of a row is populated. -/
def exactlyOnePayload (r : HTTPCacheContent) : Prop :=
  (r.content.isSome ∧ r.content_bzip2 = none) ∨
    (r.content = none ∧ r.content_bzip2.isSome)

/-- An uncompressed-mode store handle with expiration checking enabled. -/
def cfgPlain : CacheConfig := ⟨false, false⟩

/-- A compressed-mode store handle with expiration checking enabled. -/
def cfgCompressed : CacheConfig := ⟨false, true⟩

/-- A row for url "u" cached at 0 with `expire_on_dt = 5` and raw payload
`[65]`. -/
def rowExpiresAt5 : HTTPCacheContent :=
  { url := "u", key := none, cached_on := 0, content := some [65]
    content_bzip2 := none, expire_on_dt := some 5 }

/-- The store state after writing url "u" with raw payload `[65]`
through an uncompressed-mode handle. -/
def sCross1 : CacheState :=
  [{ url := "u", key := none, cached_on := 0, content := some [65]
     content_bzip2 := none, expire_on_dt := none }]

/-- The same row after a colliding `set` of `[66]` through a
compressed-mode handle: the overwrite path wrote `content_bzip2` but
left the raw `content` column untouched, so both payload columns are now
populated. -/
def sCross2 : CacheState :=
  [{ url := "u", key := none, cached_on := 1, content := some [65]
     content_bzip2 := some (bz2compress [66]), expire_on_dt := none }]

/-- The destination store of the reference merge scenario:
`url "x" → payload [1]` ("old"). -/
def destOld : CacheState :=
  [{ url := "x", key := none, cached_on := 0, content := some [1]
     content_bzip2 := none, expire_on_dt := none }]

/-- The source store of the reference merge scenario:
`url "x" → payload [2]` ("new"). -/
def srcNew : CacheState :=
  [{ url := "x", key := none, cached_on := 1, content := some [2]
     content_bzip2 := none, expire_on_dt := none }]

/-! ## Theorems -/

theorem bz2_left_inverse (b : Bytes) : bz2decompress (bz2compress b) = b := rfl

/-! ### Helper lemmas about url-preserving row updates -/

theorem find?_url_map (s : CacheState) (f : HTTPCacheContent → HTTPCacheContent)
    (hf : ∀ r, (f r).url = r.url) (u : String) :
    (s.map f).find? (fun r => r.url = u) = (s.find? (fun r => r.url = u)).map f := by
  rw [List.find?_map]
  simp only [Function.comp_def, hf]

theorem countP_url_map (s : CacheState) (f : HTTPCacheContent → HTTPCacheContent)
    (hf : ∀ r, (f r).url = r.url) (u : String) :
    (s.map f).countP (fun r => r.url = u) = s.countP (fun r => r.url = u) := by
  rw [List.countP_map]
  simp only [Function.comp_def, hf]

theorem filter_url_map (s : CacheState) (f : HTTPCacheContent → HTTPCacheContent)
    (hf : ∀ r, (f r).url = r.url) (u : String) :
    (s.map f).filter (fun r => r.url = u) = (s.filter (fun r => r.url = u)).map f := by
  rw [List.filter_map]
  simp only [Function.comp_def, hf]

theorem overwriteRow_url (m : Bool) (c : Bytes) (e : Option Nat) (co : Nat)
    (r : HTTPCacheContent) : (overwriteRow m c e co r).url = r.url := rfl

/-- A unique (`countP ≤ 1`) present (`any`) url resolves to a one-element
filter. -/
theorem filter_url_singleton (s : CacheState) (u : String)
    (hone : s.countP (fun r => r.url = u) ≤ 1)
    (hany : s.any (fun r => r.url = u) = true) :
    ∃ r, s.filter (fun r => r.url = u) = [r] ∧ r ∈ s ∧ r.url = u := by
  have hpos : 0 < s.countP (fun r => r.url = u) := by
    rw [List.countP_pos_iff]
    simpa using hany
  have hcount : s.countP (fun r => r.url = u) = 1 := le_antisymm hone hpos
  rw [List.countP_eq_length_filter] at hcount
  obtain ⟨r, hr⟩ := List.length_eq_one.mp hcount
  refine ⟨r, hr, ?_, ?_⟩
  · have : r ∈ s.filter (fun r => r.url = u) := by simp [hr]
    exact (List.mem_filter.mp this).1
  · have : r ∈ s.filter (fun r => r.url = u) := by simp [hr]
    have := (List.mem_filter.mp this).2
    simpa using this

/-! ### Characterization of `HTTPCache.set` with default optional arguments -/

/-- A default-argument `set` on a store not containing the url appends
one fresh row carrying the current mode's payload. -/
theorem set_default_no_collision (cfg : CacheConfig) (now : Nat) (s : CacheState)
    (u : String) (c : Bytes) (h : s.any (fun r => r.url = u) = false) :
    HTTPCache.set cfg now s u c =
      .ok (s ++ [{ url := u, key := none, cached_on := now
                   content := (setPayload cfg.store_as_compressed c).1
                   content_bzip2 := (setPayload cfg.store_as_compressed c).2
                   expire_on_dt := none }]) := by
  unfold HTTPCache.set
  simp [h]

/-- A default-argument `set` on a store already containing the url takes
the collision path and overwrites every row bearing that url in place
(there is exactly one under the primary-key invariant). -/
theorem set_default_collision (cfg : CacheConfig) (now : Nat) (s : CacheState)
    (u : String) (c : Bytes) (h : s.any (fun r => r.url = u) = true) :
    HTTPCache.set cfg now s u c =
      .ok (s.map (fun r =>
        if r.url = u then overwriteRow cfg.store_as_compressed c none now r else r)) := by
  unfold HTTPCache.set
  have hfind : (s.find? (fun r => r.url = u)).isSome := by
    rw [List.find?_isSome]
    simpa using h
  obtain ⟨r0, hr0⟩ := Option.isSome_iff_exists.mp hfind
  simp [h, hr0]

/-- Round-trip core: a default-argument `set` through a handle whose
mode is consistent with the url's current payload state (compressed
handles require the url's row, if any, to have no raw `content` — the
state every purely-compressed store is in) is read back byte-exactly by
`get` on the same handle, at any later time. -/
theorem set_get_roundtrip_aux (cfg : CacheConfig) (now now2 : Nat)
    (s s1 : CacheState) (u : String) (c : Bytes)
    (hone : s.countP (fun r => r.url = u) ≤ 1)
    (hmode : cfg.store_as_compressed = true → ∀ r ∈ s, r.url = u → r.content = none)
    (hset : HTTPCache.set cfg now s u c = .ok s1) :
    HTTPCache.get cfg s1 now2 u = .ok (some c) := by
  have hid : identCond .url u = fun r => decide (r.url = u) := rfl
  cases hcol : s.any (fun r => r.url = u) with
  | false =>
    rw [set_default_no_collision cfg now s u c hcol] at hset
    cases hset
    unfold HTTPCache.get
    rw [hid]
    have hnil : s.filter (fun r => decide (r.url = u)) = [] := by
      rw [List.filter_eq_nil_iff]
      intro a ha
      have hfa := List.any_eq_false.mp hcol
      simpa using hfa a ha
    rw [List.filter_append, hnil]
    cases hm : cfg.store_as_compressed with
    | false => simp [setPayload, hm]
    | true => simp [setPayload, hm, bz2decompress, bz2compress]
  | true =>
    rw [set_default_collision cfg now s u c hcol] at hset
    cases hset
    unfold HTTPCache.get
    rw [hid]
    obtain ⟨r0, hflt, hr0mem, hr0url⟩ := filter_url_singleton s u hone hcol
    have hupd : ∀ r : HTTPCacheContent,
        ((fun r => if r.url = u
            then overwriteRow cfg.store_as_compressed c none now r else r) r).url = r.url := by
      intro r
      by_cases hru : r.url = u
      · simp [hru, overwriteRow_url]
      · simp [hru]
    rw [filter_url_map _ _ hupd, hflt]
    simp only [List.map_cons, List.map_nil, hr0url, if_pos rfl]
    cases hm : cfg.store_as_compressed with
    | false => simp [overwriteRow, hm]
    | true =>
      have hc0 : r0.content = none := hmode hm r0 hr0mem hr0url
      simp [overwriteRow, hm, hc0, bz2decompress, bz2compress]

/-! ### Claim theorems -/

/-- Claim C4 (counterexample): with expiration checking enabled and an
entry whose `expires_at` is `T = 5`, `get` at current time exactly `T`
returns the entry — not absent as the claim states — because the code's
comparison `expire_on_dt < now` is strict (cache.py line 320). -/
theorem get_at_expiry_instant_returns_entry :
    HTTPCache.get cfgPlain [rowExpiresAt5] 5 "u" = .ok (some [65]) := rfl

/-- Claim C4 (amended): for a store whose row set resolves `u` to a
single row with `expires_at = T` and raw payload `c`: with expiration
checking enabled, `get` returns the entry exactly when `now ≤ T` and
absent exactly when `T < now` (strictly later than `T`, not "`T` or
later"); with `dont_expire` set, `get` returns the entry regardless of
`now`. -/
theorem get_expiration_boundary (cfg : CacheConfig) (s : CacheState)
    (r : HTTPCacheContent) (u : String) (T now : Nat) (c : Bytes)
    (hfind : s.filter (identCond .url u) = [r])
    (hexp : r.expire_on_dt = some T)
    (hc : r.content = some c) :
    HTTPCache.get cfg s now u =
      (if cfg.dont_expire = false ∧ T < now then .ok none else .ok (some c)) := by
  unfold HTTPCache.get
  rw [hfind]
  simp only [hexp, hc]
  cases hde : cfg.dont_expire with
  | false =>
    by_cases hlt : T < now
    · simp [hlt]
    · simp [hlt]
  | true =>
    simp

/-- Claim C4 (witness for the amended theorem): evaluated on the
concrete one-row store at time 4 (before `T = 5`), the entry is
returned. -/
theorem get_expiration_boundary_witness :
    HTTPCache.get cfgPlain [rowExpiresAt5] 4 "u" = .ok (some [65]) := by
  have h := get_expiration_boundary cfgPlain [rowExpiresAt5] rowExpiresAt5 "u" 5 4 [65]
    rfl rfl rfl
  simpa using h

/-- Claim C5 (counterexample): `set("u", A)` under an uncompressed store
followed by `set("u", B)` under a compressed store over the same
database leaves the single live entry for "u" with BOTH payload fields
populated (`content = A` and `content_bzip2 = compress B`), violating
the claimed exactly-one invariant: the collision-overwrite path
(cache.py lines 445-449) assigns only the current mode's payload column
and never clears the other. -/
theorem cross_mode_overwrite_populates_both_payloads :
    HTTPCache.set cfgPlain 0 [] "u" [65] = .ok sCross1 ∧
    HTTPCache.set cfgCompressed 1 sCross1 "u" [66] = .ok sCross2 ∧
    sCross2.countP (fun r => r.content.isSome && r.content_bzip2.isSome) = 1 := by
  refine ⟨rfl, rfl, rfl⟩

/-- Claim C7 (counterexample): merging a source containing "x" into a
destination that already has "x" under SKIP mode performs no write (the
committed destination is unchanged), yet "x" appears in the returned
`merged_urls` — the loop appends every source url to `urls` before the
conflict check (cache.py line 276), so a skipped url is reported as
merged, contradicting the claim. -/
theorem merge_skip_reports_skipped_url_as_merged :
    HTTPCache.merge destOld srcNew .skip =
      { committed := destOld, outcome := .ok (["x"], ["x"]) } := rfl

/-- Claim C9: on any filter combination whose filtered set is empty,
`get_info` returns the total count and the two compression counts as 0,
but the count-with-expiration `n_expirable` as NULL/None — the None-to-0
replacement (cache.py lines 195-198) is applied only to
`n_not_compressed` and `n_compressed`, not to `n_expirable`, so the
claim's "all counts 0, never None" fails for `n_expirable`. -/
theorem get_info_empty_filter_counts (g : String → String → Bool) (s : CacheState)
    (ug : Option String) (kg : Option KeyGlob)
    (dr : Option (Option Nat × Option Nat))
    (h : s.filter (rowMatches g ug kg dr) = []) :
    HTTPCache.get_info g s ug kg dr =
      { n := 0, earliest_dt := none, latest_dt := none, n_expirable := none
        n_not_compressed := 0, n_compressed := 0 } := by
  unfold HTTPCache.get_info
  rw [h]
  rfl

/-- Claim C9 (witness): evaluated on the empty store with no filters. -/
theorem get_info_empty_filter_counts_witness :
    HTTPCache.get_info (fun _ _ => true) [] none none none =
      { n := 0, earliest_dt := none, latest_dt := none, n_expirable := none
        n_not_compressed := 0, n_compressed := 0 } :=
  get_info_empty_filter_counts (fun _ _ => true) [] none none none rfl

/-- Claim C8: a hook returning the `(FAIL, reason)` command tuple — the
module defines no `ON_RESPONSE_FAIL`, even though the package
`__init__.py` imports one from it — is handled by the unknown-command
branch of `_process_on_response`: it raises
`ValueError("on_response returned an unknown command. ...")` naming the
bad value, rather than a dedicated caller-facing failure carrying the
reason and the raw response. -/
theorem on_response_fail_is_unknown_command :
    processOnResponse 1 2 (some ("fail", ⟨some "rate limited", 0⟩)) ⟨1, none, []⟩ =
      .error (.unknownCommand ("fail", ⟨some "rate limited", 0⟩)) := rfl

/-- Claim C10: constructing `HTTPReq` with `cache_filename = None` and
`cache_in_memory = False` always raises before the constructor
completes: when the `cache_only` asserts pass, `self._cache` is `None`
and the unconditional read of `self._cache.version` (http_req.py line
257) raises `AttributeError`; when `cache_only` is set one of the
asserts fires even earlier.  Either way no orchestrator without a cache
can be obtained. -/
theorem init_without_cache_raises (fsIsFile : String → Bool)
    (fsVersion : String → Nat) (promptYes : Bool) (cfg : HTTPReqConfig)
    (h1 : cfg.cache_filename = none) (h2 : cfg.cache_in_memory = false) :
    HTTPReq.init fsIsFile fsVersion promptYes cfg =
      .error
        (if cfg.cache_only then
          (if cfg.cache_dont_expire then
            .assertionError
              "cache_only + no cache_filename means there is no chance of getting results"
          else
            .assertionError "cache_dont_expire must be Truw if cache_only is True")
        else .attributeErrorNoneVersion) := by
  unfold HTTPReq.init
  cases hco : cfg.cache_only with
  | false => simp [h1, h2, hco]
  | true =>
    cases hde : cfg.cache_dont_expire with
    | false => simp [h1, h2, hco, hde]
    | true => simp [h1, h2, hco, hde]

/-- Claim C10 (witness): the all-defaults construction (no cache file,
not in memory) fails with the `AttributeError`. -/
theorem init_without_cache_raises_witness :
    HTTPReq.init (fun _ => false) (fun _ => 0) false {} =
      .error .attributeErrorNoneVersion := by
  have h := init_without_cache_raises (fun _ => false) (fun _ => 0) false {} rfl rfl
  simpa using h

/-- After a default-argument `set`, exactly one row bears the url. -/
theorem set_default_countP (cfg : CacheConfig) (now : Nat) (s s1 : CacheState)
    (u : String) (c : Bytes)
    (hone : s.countP (fun r => r.url = u) ≤ 1)
    (hset : HTTPCache.set cfg now s u c = .ok s1) :
    s1.countP (fun r => r.url = u) = 1 := by
  cases hcol : s.any (fun r => r.url = u) with
  | false =>
    rw [set_default_no_collision cfg now s u c hcol] at hset
    cases hset
    rw [List.countP_append]
    have hzero : s.countP (fun r => r.url = u) = 0 := by
      rw [List.countP_eq_zero]
      have hfa := List.any_eq_false.mp hcol
      intro a ha
      simpa using hfa a ha
    rw [hzero]
    simp [List.countP_cons]
  | true =>
    rw [set_default_collision cfg now s u c hcol] at hset
    cases hset
    have hupd : ∀ r : HTTPCacheContent,
        ((fun r => if r.url = u
            then overwriteRow cfg.store_as_compressed c none now r else r) r).url = r.url := by
      intro r
      by_cases hru : r.url = u
      · simp [hru, overwriteRow_url]
      · simp [hru]
    rw [countP_url_map _ _ hupd]
    have hpos : 0 < s.countP (fun r => r.url = u) := by
      rw [List.countP_pos_iff]
      simpa using hcol
    omega

/-- A default-argument `set` through a compressed handle leaves the
url's rows with no raw `content`, provided they had none before (fresh
inserts have none, and the overwrite path does not touch `content` in
compressed mode). -/
theorem set_default_mode (cfg : CacheConfig) (now : Nat) (s s1 : CacheState)
    (u : String) (c : Bytes)
    (hmode : cfg.store_as_compressed = true → ∀ r ∈ s, r.url = u → r.content = none)
    (hset : HTTPCache.set cfg now s u c = .ok s1) :
    cfg.store_as_compressed = true → ∀ r ∈ s1, r.url = u → r.content = none := by
  intro hm r hrmem hrurl
  cases hcol : s.any (fun r => r.url = u) with
  | false =>
    rw [set_default_no_collision cfg now s u c hcol] at hset
    cases hset
    rcases List.mem_append.mp hrmem with hin | hnew
    · exact hmode hm r hin hrurl
    · have : r = { url := u, key := none, cached_on := now
                   content := (setPayload cfg.store_as_compressed c).1
                   content_bzip2 := (setPayload cfg.store_as_compressed c).2
                   expire_on_dt := none } := by simpa using hnew
      rw [this]
      simp [setPayload, hm]
  | true =>
    rw [set_default_collision cfg now s u c hcol] at hset
    cases hset
    obtain ⟨r0, hr0mem, hr0eq⟩ := List.mem_map.mp hrmem
    by_cases hr0u : r0.url = u
    · rw [if_pos hr0u] at hr0eq
      have hc0 : r0.content = none := hmode hm r0 hr0mem hr0u
      rw [← hr0eq]
      simp [overwriteRow, hm, hc0]
    · rw [if_neg hr0u] at hr0eq
      rw [← hr0eq] at hrurl
      exact absurd hrurl hr0u

/-- Claim C1: `set(url, content)` followed by `get(url)` on the same
store handle returns `content` byte-exactly, whether the handle was
opened with compression enabled or disabled.  The hypotheses are the
invariants of "the same store": at most one row per url (the primary-key
constraint the database enforces), and — for a compressed-mode handle —
that the url's row, if any, carries no raw `content`, which is the state
of every store whose writes all went through that mode (per the
constructor contract "store in compressed form, and expect the cache to
be compressed"). -/
theorem set_then_get_returns_content (cfg : CacheConfig) (now now2 : Nat)
    (s s1 : CacheState) (u : String) (c : Bytes)
    (hone : s.countP (fun r => r.url = u) ≤ 1)
    (hmode : cfg.store_as_compressed = true → ∀ r ∈ s, r.url = u → r.content = none)
    (hset : HTTPCache.set cfg now s u c = .ok s1) :
    HTTPCache.get cfg s1 now2 u = .ok (some c) :=
  set_get_roundtrip_aux cfg now now2 s s1 u c hone hmode hset

/-- Claim C1 (witness): bytes `[10, 20]` written for "u" into the empty
store through the compressed handle are read back byte-exactly at a
later time. -/
theorem set_then_get_returns_content_witness :
    HTTPCache.get cfgCompressed
      [{ url := "u", key := none, cached_on := 0, content := none
         content_bzip2 := some (bz2compress [10, 20]), expire_on_dt := none }] 7 "u" =
      .ok (some [10, 20]) :=
  set_then_get_returns_content cfgCompressed 0 7 [] _ "u" [10, 20]
    (by simp) (by simp) rfl

/-- Claim C2: `set(url, A)` then `set(url, B)` through the same handle
leaves exactly one row for the url; `get` then yields `B`; and the
colliding write updated `cached_on` (to the write time) and
`expire_on_dt` in place while leaving the row's `key` identity field
exactly as it was after the first write (and its `url`, which still
resolves the lookup, unchanged). -/
theorem set_then_set_overwrites_in_place (cfg : CacheConfig) (now1 now2 : Nat)
    (s s1 s2 : CacheState) (u : String) (A B : Bytes)
    (hone : s.countP (fun r => r.url = u) ≤ 1)
    (hmode : cfg.store_as_compressed = true → ∀ r ∈ s, r.url = u → r.content = none)
    (h1 : HTTPCache.set cfg now1 s u A = .ok s1)
    (h2 : HTTPCache.set cfg now2 s1 u B = .ok s2) :
    s2.countP (fun r => r.url = u) = 1 ∧
    HTTPCache.get cfg s2 now2 u = .ok (some B) ∧
    (s2.find? (fun r => r.url = u)).map (fun r => r.key) =
      (s1.find? (fun r => r.url = u)).map (fun r => r.key) ∧
    (s2.find? (fun r => r.url = u)).map (fun r => r.cached_on) = some now2 ∧
    (s2.find? (fun r => r.url = u)).map (fun r => r.expire_on_dt) = some none := by
  have hone1 : s1.countP (fun r => r.url = u) = 1 :=
    set_default_countP cfg now1 s s1 u A hone h1
  have hmode1 := set_default_mode cfg now1 s s1 u A hmode h1
  have hany1 : s1.any (fun r => r.url = u) = true := by
    rw [List.any_eq_true]
    have hpos : 0 < s1.countP (fun r => r.url = u) := by omega
    exact List.countP_pos_iff.mp hpos
  have hupd : ∀ r : HTTPCacheContent,
      ((fun r => if r.url = u
          then overwriteRow cfg.store_as_compressed B none now2 r else r) r).url = r.url := by
    intro r
    by_cases hru : r.url = u
    · simp [hru, overwriteRow_url]
    · simp [hru]
  have hset2 := set_default_collision cfg now2 s1 u B hany1
  have hs2 : s2 = s1.map (fun r =>
      if r.url = u then overwriteRow cfg.store_as_compressed B none now2 r else r) := by
    rw [hset2] at h2
    exact (Except.ok.inj h2).symm
  have hfind1 : (s1.find? (fun r => r.url = u)).isSome := by
    rw [List.find?_isSome]
    simpa using hany1
  obtain ⟨r1, hr1⟩ := Option.isSome_iff_exists.mp hfind1
  have hr1url : r1.url = u := by
    have := List.find?_some hr1
    simpa using this
  refine ⟨?_, ?_, ?_, ?_, ?_⟩
  · rw [hs2, countP_url_map _ _ hupd]
    exact hone1
  · exact set_get_roundtrip_aux cfg now2 now2 s1 s2 u B (le_of_eq hone1) hmode1 h2
  · rw [hs2, find?_url_map _ _ hupd, hr1]
    simp [hr1url, overwriteRow]
  · rw [hs2, find?_url_map _ _ hupd, hr1]
    simp [hr1url, overwriteRow]
  · rw [hs2, find?_url_map _ _ hupd, hr1]
    simp [hr1url, overwriteRow]

/-- Claim C2 (witness): writing `[1]` then `[2]` for "u" into the empty
store through the plain handle: one row remains, `get` yields `[2]`,
the key is still absent, `cached_on` is the second write's time and the
expiration is cleared. -/
theorem set_then_set_overwrites_in_place_witness :
    ([({ url := "u", key := none, cached_on := 4, content := some [2]
         content_bzip2 := none, expire_on_dt := none } : HTTPCacheContent)].countP
        (fun r => r.url = "u") = 1) ∧
    HTTPCache.get cfgPlain
      [{ url := "u", key := none, cached_on := 4, content := some [2]
         content_bzip2 := none, expire_on_dt := none }] 4 "u" = .ok (some [2]) ∧
    (([({ url := "u", key := none, cached_on := 4, content := some [2]
          content_bzip2 := none, expire_on_dt := none } : HTTPCacheContent)].find?
        (fun r => r.url = "u")).map (fun r => r.key) =
      ([({ url := "u", key := none, cached_on := 3, content := some [1]
           content_bzip2 := none, expire_on_dt := none } : HTTPCacheContent)].find?
        (fun r => r.url = "u")).map (fun r => r.key)) ∧
    (([({ url := "u", key := none, cached_on := 4, content := some [2]
          content_bzip2 := none, expire_on_dt := none } : HTTPCacheContent)].find?
        (fun r => r.url = "u")).map (fun r => r.cached_on) = some 4) ∧
    (([({ url := "u", key := none, cached_on := 4, content := some [2]
          content_bzip2 := none, expire_on_dt := none } : HTTPCacheContent)].find?
        (fun r => r.url = "u")).map (fun r => r.expire_on_dt) = some none) :=
  set_then_set_overwrites_in_place cfgPlain 3 4 [] _ _ "u" [1] [2]
    (by simp) (by simp) rfl rfl

/-- With no hook configured and a transport whose every attempt fails
(non-success status or no response), the fetch loop consumes its entire
iteration budget, incrementing the attempt counter once per iteration,
and ends holding the last attempt's response. -/
theorem fetchLoop_all_fail (retries : Nat) (transport : Nat → Option HTTPResp)
    (hfail : ∀ i r, transport i = some r → r.status ≠ 200) :
    ∀ (remaining : Nat) (st : FetchState), 1 ≤ remaining →
      fetchLoop retries transport none remaining st =
        .ok ({ st with tries := st.tries + remaining },
             transport (st.tries + remaining)) := by
  intro remaining
  induction remaining with
  | zero => intro st h; omega
  | succ k ih =>
    intro st _
    unfold fetchLoop
    have hnot : (match transport (st.tries + 1) with
        | some resp => resp.status == 200
        | none => false) = false := by
      cases htr : transport (st.tries + 1) with
      | none => rfl
      | some resp =>
        have hne := hfail _ _ htr
        simpa using hne
    simp only [hnot, Bool.false_eq_true, if_false]
    cases k with
    | zero => simp
    | succ j =>
      have hrec := ih { st with tries := st.tries + 1 } (by omega)
      simp only [Nat.succ_ne_zero, if_false, hrec]
      have harith : st.tries + 1 + (j + 1) = st.tries + (j + 1 + 1) := by omega
      simp [harith]

/-- Claim C3: with `http_retries = N`, no hook, and a transport that
always fails, the web path of `get` performs exactly `N + 1` transport
attempts and raises `HTTPReqError` carrying the url and the last
response (or recording the timed-out marker when the last attempt got no
response) — but the attempt count written into the error message is
`self.__tries + 1 = N + 2`, one more than the `N + 1` attempts actually
performed. -/
theorem retry_budget_and_error_attempt_count (N : Nat)
    (transport : Nat → Option HTTPResp) (url : String)
    (hfail : ∀ i r, transport i = some r → r.status ≠ 200) :
    HTTPReq.attemptsMade N transport none = N + 1 ∧
    HTTPReq.getFromWeb N transport none url =
      .error (.httpReqError
        { url := url, attemptsInMsg := N + 2, http_resp := transport (N + 1)
          skip := match transport (N + 1) with
            | some resp => .resp resp
            | none => .timedOutMarker }) := by
  have hl := fetchLoop_all_fail N transport hfail (N + 1) ⟨0, none, []⟩ (by omega)
  simp only [Nat.zero_add] at hl
  constructor
  · unfold HTTPReq.attemptsMade
    rw [hl]
  · unfold HTTPReq.getFromWeb
    rw [hl]
    cases htr : transport (N + 1) with
    | none => rfl
    | some resp =>
      have hne := hfail _ _ htr
      simp [hne]

/-- Claim C3 (witness): `http_retries = 0` with a transport always
answering status 500: one attempt is made, and the raised error's
message count is 2. -/
theorem retry_budget_and_error_attempt_count_witness :
    HTTPReq.attemptsMade 0 (fun _ => some ⟨500, []⟩) none = 1 ∧
    HTTPReq.getFromWeb 0 (fun _ => some ⟨500, []⟩) none "u" =
      .error (.httpReqError
        { url := "u", attemptsInMsg := 2, http_resp := some ⟨500, []⟩
          skip := .resp ⟨500, []⟩ }) := by
  have h := retry_budget_and_error_attempt_count 0 (fun _ => some ⟨500, []⟩) "u"
    (fun i r hr => by cases hr; decide)
  simpa using h

/-- Mode consistency implies the exactly-one-payload shape. -/
theorem modeConsistent_exactlyOne (m : Bool) (r : HTTPCacheContent)
    (h : modeConsistent m r) : exactlyOnePayload r := by
  cases m with
  | false =>
    simp [modeConsistent] at h
    exact Or.inl ⟨h.1, h.2⟩
  | true =>
    simp [modeConsistent] at h
    exact Or.inr ⟨h.1, h.2⟩

/-- The collision-overwrite of a row whose payload state agrees with the
writing handle's mode stays consistent with that mode. -/
theorem overwriteRow_modeConsistent (m : Bool) (c : Bytes) (e : Option Nat)
    (co : Nat) (r : HTTPCacheContent) (h : modeConsistent m r) :
    modeConsistent m (overwriteRow m c e co r) := by
  cases m with
  | true =>
    simp [modeConsistent, overwriteRow] at h ⊢
    exact h.1
  | false =>
    simp [modeConsistent, overwriteRow] at h ⊢
    exact h.2

/-- A freshly inserted row is consistent with the inserting handle's
mode. -/
theorem newRow_modeConsistent (m : Bool) (c : Bytes) (u : String)
    (k : Option String) (co : Nat) (e : Option Nat) :
    modeConsistent m
      { url := u, key := k, cached_on := co, content := (setPayload m c).1
        content_bzip2 := (setPayload m c).2, expire_on_dt := e } := by
  cases m <;> simp [modeConsistent, setPayload]

/-- Claim C5 (amended): the exactly-one-payload-field invariant holds
for every live entry as long as every write to the store goes through
handles of one fixed compression mode: any `set` (with any combination
of its optional arguments) performed under a mode all existing rows are
consistent with preserves mode consistency, hence exactly one payload
field populated, for every row.  (The unamended claim fails for writes
under a mode differing from the entry's, see the counterexample: the
overwrite path assigns only the current mode's payload column and never
clears the other.) -/
theorem set_preserves_payload_invariant (cfg : CacheConfig) (now : Nat)
    (s s1 : CacheState) (url : String) (content : Bytes)
    (e_dt e_td c_on : Option Nat) (c_key : Option String)
    (hinv : ∀ r ∈ s, modeConsistent cfg.store_as_compressed r)
    (hset : HTTPCache.set cfg now s url content e_dt e_td c_on c_key = .ok s1) :
    ∀ r ∈ s1, modeConsistent cfg.store_as_compressed r ∧ exactlyOnePayload r := by
  unfold HTTPCache.set at hset
  by_cases hassert : (e_dt.isSome && e_td.isSome) = true
  · rw [if_pos hassert] at hset
    exact absurd hset (by simp)
  · rw [if_neg hassert] at hset
    dsimp only at hset
    split at hset
    next hcol =>
      split at hset
      next r0 hfind =>
        have hs1 := (Except.ok.inj hset).symm
        subst hs1
        intro r hr
        obtain ⟨r0x, hr0mem, hr0eq⟩ := List.mem_map.mp hr
        by_cases hru : r0x.url = url
        · rw [if_pos hru] at hr0eq
          rw [← hr0eq]
          refine ⟨overwriteRow_modeConsistent _ _ _ _ _ (hinv r0x hr0mem), ?_⟩
          exact modeConsistent_exactlyOne _ _
            (overwriteRow_modeConsistent _ _ _ _ _ (hinv r0x hr0mem))
        · rw [if_neg hru] at hr0eq
          rw [← hr0eq]
          exact ⟨hinv r0x hr0mem, modeConsistent_exactlyOne _ _ (hinv r0x hr0mem)⟩
      next hfind =>
        split at hset
        next => exact absurd hset (by simp)
        next copt kstr =>
          split at hset
          next r0 hfindk =>
            have hs1 := (Except.ok.inj hset).symm
            subst hs1
            intro r hr
            obtain ⟨r0x, hr0mem, hr0eq⟩ := List.mem_map.mp hr
            by_cases hrk : r0x.key = some kstr
            · rw [if_pos hrk] at hr0eq
              rw [← hr0eq]
              refine ⟨overwriteRow_modeConsistent _ _ _ _ _ (hinv r0x hr0mem), ?_⟩
              exact modeConsistent_exactlyOne _ _
                (overwriteRow_modeConsistent _ _ _ _ _ (hinv r0x hr0mem))
            · rw [if_neg hrk] at hr0eq
              rw [← hr0eq]
              exact ⟨hinv r0x hr0mem, modeConsistent_exactlyOne _ _ (hinv r0x hr0mem)⟩
          next hfindk => exact absurd hset (by simp)
    next hcol =>
      have hs1 := (Except.ok.inj hset).symm
      subst hs1
      intro r hr
      rcases List.mem_append.mp hr with hin | hnew
      · exact ⟨hinv r hin, modeConsistent_exactlyOne _ _ (hinv r hin)⟩
      · have hr2 := List.mem_singleton.mp hnew
        subst hr2
        exact ⟨newRow_modeConsistent _ _ _ _ _ _,
          modeConsistent_exactlyOne _ _ (newRow_modeConsistent _ _ _ _ _ _)⟩

/-- Claim C5 (witness for the amended theorem): the row produced by a
compressed-mode insert into the empty store is mode-consistent and has
exactly one payload field populated. -/
theorem set_preserves_payload_invariant_witness :
    modeConsistent cfgCompressed.store_as_compressed
      { url := "u", key := none, cached_on := 0, content := none
        content_bzip2 := some (bz2compress [5]), expire_on_dt := none } ∧
    exactlyOnePayload
      { url := "u", key := none, cached_on := 0, content := none
        content_bzip2 := some (bz2compress [5]), expire_on_dt := none } :=
  set_preserves_payload_invariant cfgCompressed 0 []
    [{ url := "u", key := none, cached_on := 0, content := none
       content_bzip2 := some (bz2compress [5]), expire_on_dt := none }]
    "u" [5] none none none none (by simp) rfl
    { url := "u", key := none, cached_on := 0, content := none
      content_bzip2 := some (bz2compress [5]), expire_on_dt := none }
    (by simp)

/-! ### Merge helper lemmas -/

/-- The urls present after a `session.merge` write are those of the
pending state plus the written row's url. -/
theorem any_url_sessionMerge (p : CacheState) (hcc : HTTPCacheContent) (z : String) :
    (sessionMerge p hcc).any (fun r => r.url = z) =
      (p.any (fun r => r.url = z) || decide (hcc.url = z)) := by
  unfold sessionMerge
  split
  next hrep =>
    rw [Bool.eq_iff_iff]
    simp only [List.any_map, List.any_eq_true, Bool.or_eq_true, decide_eq_true_eq,
      Function.comp_def]
    constructor
    · rintro ⟨r, hr, hurl⟩
      by_cases hcase : r.url = hcc.url
      · rw [if_pos hcase] at hurl
        exact Or.inr hurl
      · rw [if_neg hcase] at hurl
        exact Or.inl ⟨r, hr, hurl⟩
    · rintro (⟨r, hr, hurl⟩ | hurl)
      · by_cases hcase : r.url = hcc.url
        · refine ⟨r, hr, ?_⟩
          rw [if_pos hcase]
          rw [← hcase, hurl]
        · exact ⟨r, hr, by rw [if_neg hcase]; exact hurl⟩
      · obtain ⟨r0, hr0, hr0u⟩ := List.any_eq_true.mp hrep
        refine ⟨r0, hr0, ?_⟩
        rw [if_pos (by simpa using hr0u)]
        exact hurl
  next hrep =>
    simp

/-- The replacement function `session.merge` applies preserves each
row's url. -/
theorem sessionMerge_urlf : ∀ (hcc : HTTPCacheContent) (r : HTTPCacheContent),
    ((fun r => if r.url = hcc.url then hcc else r) r).url = r.url := by
  intro hcc r
  show (if r.url = hcc.url then hcc else r).url = r.url
  by_cases hcase : r.url = hcc.url
  · rw [if_pos hcase, hcase]
  · rw [if_neg hcase]

/-- After writing a row, lookup of its url finds exactly that row. -/
theorem find?_sessionMerge_self (p : CacheState) (hcc : HTTPCacheContent) (u : String)
    (h : hcc.url = u) :
    (sessionMerge p hcc).find? (fun r => r.url = u) = some hcc := by
  unfold sessionMerge
  split
  next hrep =>
    rw [find?_url_map _ _ (sessionMerge_urlf hcc)]
    obtain ⟨r0, hr0, hr0u⟩ := List.any_eq_true.mp hrep
    have hfs : (p.find? (fun r => r.url = u)).isSome := by
      rw [List.find?_isSome]
      exact ⟨r0, hr0, by simp at hr0u ⊢; rw [hr0u, h]⟩
    obtain ⟨rf, hrf⟩ := Option.isSome_iff_exists.mp hfs
    rw [hrf]
    have hrfu : rf.url = u := by simpa using List.find?_some hrf
    simp only [Option.map_some']
    rw [if_pos (by rw [hrfu, h])]
  next hrep =>
    rw [List.find?_append]
    have hnone : p.find? (fun r => r.url = u) = none := by
      rw [List.find?_eq_none]
      intro x hx
      simp only [decide_eq_true_eq]
      intro hxu
      exact hrep (List.any_eq_true.mpr ⟨x, hx, by simp [hxu, h]⟩)
    rw [hnone]
    simp [h]

/-- Writing a row with a different url leaves the lookup of `u`
unchanged. -/
theorem find?_sessionMerge_other (p : CacheState) (hcc : HTTPCacheContent) (u : String)
    (h : hcc.url ≠ u) :
    (sessionMerge p hcc).find? (fun r => r.url = u) = p.find? (fun r => r.url = u) := by
  unfold sessionMerge
  split
  next hrep =>
    rw [find?_url_map _ _ (sessionMerge_urlf hcc)]
    cases hp : p.find? (fun r => r.url = u) with
    | none => rfl
    | some r0 =>
      have hr0u : r0.url = u := by simpa using List.find?_some hp
      simp only [Option.map_some']
      rw [if_neg (by rw [hr0u]; exact fun he => h he.symm)]
  next hrep =>
    rw [List.find?_append]
    have hone : ([hcc].find? (fun r => r.url = u)) = none := by
      simp [h]
    rw [hone, Option.or_none]

/-- A fail-mode merge loop over a source containing a url already
present in the pending destination raises `CacheMergeConflict`. -/
theorem mergeLoop_fail_error :
    ∀ (t : List HTTPCacheContent) (pending : CacheState) (ua ca : List String),
      (∃ r ∈ t, pending.any (fun x => x.url = r.url) = true) →
      ∃ e, mergeLoop .fail t pending ua ca = .error e := by
  intro t
  induction t with
  | nil =>
    rintro pending ua ca ⟨r, hr, -⟩
    exact absurd hr (List.not_mem_nil r)
  | cons h rest ih =>
    rintro pending ua ca ⟨r, hrmem, hany⟩
    unfold mergeLoop
    by_cases hh : pending.any (fun x => x.url = h.url) = true
    · simp [hh]
    · rcases List.mem_cons.mp hrmem with rfl | hrest
      · exact absurd hany hh
      · simp only [hh, Bool.false_eq_true, if_false]
        apply ih
        refine ⟨r, hrest, ?_⟩
        rw [any_url_sessionMerge, hany]
        simp

/-- A skip-mode merge loop never changes what a url already present in
the destination resolves to. -/
theorem mergeLoop_skip_find (u : String) :
    ∀ (t : List HTTPCacheContent) (pending : CacheState) (ua ca : List String)
      (p : CacheState) (urls confs : List String),
      pending.any (fun r => r.url = u) = true →
      mergeLoop .skip t pending ua ca = .ok (p, urls, confs) →
      p.find? (fun r => r.url = u) = pending.find? (fun r => r.url = u) := by
  intro t
  induction t with
  | nil =>
    intro pending ua ca p urls confs hpend hml
    unfold mergeLoop at hml
    cases hml
    rfl
  | cons h rest ih =>
    intro pending ua ca p urls confs hpend hml
    unfold mergeLoop at hml
    by_cases hh : pending.any (fun r => r.url = h.url) = true
    · simp only [hh, if_true] at hml
      exact ih pending _ _ p urls confs hpend hml
    · simp only [hh, Bool.false_eq_true, if_false] at hml
      have hne : h.url ≠ u := by
        intro he
        rw [he] at hh
        exact hh hpend
      have hpend2 : (sessionMerge pending h).any (fun r => r.url = u) = true := by
        rw [any_url_sessionMerge, hpend]
        simp
      have hih := ih (sessionMerge pending h) _ _ p urls confs hpend2 hml
      rw [hih, find?_sessionMerge_other _ _ _ hne]

/-- An overwrite-mode merge loop whose source never mentions `u` leaves
the lookup of `u` unchanged. -/
theorem mergeLoop_overwrite_find_preserved (u : String) :
    ∀ (t : List HTTPCacheContent) (pending : CacheState) (ua ca : List String)
      (p : CacheState) (urls confs : List String),
      (∀ r ∈ t, r.url ≠ u) →
      mergeLoop .overwrite t pending ua ca = .ok (p, urls, confs) →
      p.find? (fun r => r.url = u) = pending.find? (fun r => r.url = u) := by
  intro t
  induction t with
  | nil =>
    intro pending ua ca p urls confs _ hml
    unfold mergeLoop at hml
    cases hml
    rfl
  | cons h rest ih =>
    intro pending ua ca p urls confs hne hml
    have hh2 : h.url ≠ u := hne h (List.mem_cons_self h rest)
    have hrest : ∀ r ∈ rest, r.url ≠ u := fun r hr => hne r (List.mem_cons_of_mem h hr)
    unfold mergeLoop at hml
    by_cases hh : pending.any (fun r => r.url = h.url) = true
    · simp only [hh, if_true] at hml
      have hih := ih (sessionMerge pending h) _ _ p urls confs hrest hml
      rw [hih, find?_sessionMerge_other _ _ _ hh2]
    · simp only [hh, Bool.false_eq_true, if_false] at hml
      have hih := ih (sessionMerge pending h) _ _ p urls confs hrest hml
      rw [hih, find?_sessionMerge_other _ _ _ hh2]

/-- After an overwrite-mode merge, a url present in the source resolves
in the destination to the source's row. -/
theorem mergeLoop_overwrite_find (u : String) :
    ∀ (t : List HTTPCacheContent) (pending : CacheState) (ua ca : List String)
      (p : CacheState) (urls confs : List String),
      t.any (fun r => r.url = u) = true →
      (t.map (fun r => r.url)).Nodup →
      mergeLoop .overwrite t pending ua ca = .ok (p, urls, confs) →
      p.find? (fun r => r.url = u) = t.find? (fun r => r.url = u) := by
  intro t
  induction t with
  | nil =>
    intro pending ua ca p urls confs hany _ _
    simp at hany
  | cons h rest ih =>
    intro pending ua ca p urls confs hany hnd hml
    have hnd2 := List.nodup_cons.mp (by rw [List.map_cons] at hnd; exact hnd)
    by_cases hu : h.url = u
    · have hrest : ∀ r ∈ rest, r.url ≠ u := by
        intro r hr he
        exact hnd2.1 (List.mem_map.mpr ⟨r, hr, he.trans hu.symm⟩)
      unfold mergeLoop at hml
      by_cases hh : pending.any (fun r => r.url = h.url) = true
      · simp only [hh, if_true] at hml
        have hpr := mergeLoop_overwrite_find_preserved u rest _ _ _ p urls confs hrest hml
        rw [hpr, find?_sessionMerge_self _ _ _ hu,
          List.find?_cons_of_pos _ (by simp [hu])]
      · simp only [hh, Bool.false_eq_true, if_false] at hml
        have hpr := mergeLoop_overwrite_find_preserved u rest _ _ _ p urls confs hrest hml
        rw [hpr, find?_sessionMerge_self _ _ _ hu,
          List.find?_cons_of_pos _ (by simp [hu])]
    · have hrany : rest.any (fun r => r.url = u) = true := by
        rcases List.any_eq_true.mp hany with ⟨r, hr, hru⟩
        rcases List.mem_cons.mp hr with rfl | hmem
        · exact absurd (by simpa using hru) hu
        · exact List.any_eq_true.mpr ⟨r, hmem, hru⟩
      unfold mergeLoop at hml
      by_cases hh : pending.any (fun r => r.url = h.url) = true
      · simp only [hh, if_true] at hml
        have hih := ih (sessionMerge pending h) _ _ p urls confs hrany hnd2.2 hml
        rw [hih, List.find?_cons_of_neg _ (by simpa using hu)]
      · simp only [hh, Bool.false_eq_true, if_false] at hml
        have hih := ih (sessionMerge pending h) _ _ p urls confs hrany hnd2.2 hml
        rw [hih, List.find?_cons_of_neg _ (by simpa using hu)]

/-- In any non-fail mode the merge loop completes, returning every
source url in `urls` (appended before the conflict check, so conflicting
rows are included), and in `conflicts` exactly the source urls the
pending destination already had — `b` abstracts the destination's
url-membership test, which stays valid through the loop because source
urls are distinct. -/
theorem mergeLoop_ok_accounting (mode : ConflictMode) (hm : mode ≠ ConflictMode.fail) :
    ∀ (t : List HTTPCacheContent) (pending : CacheState) (ua ca : List String)
      (b : String → Bool),
      (∀ z, pending.any (fun r => r.url = z) = b z) →
      (t.map (fun r => r.url)).Nodup →
      ∃ p, mergeLoop mode t pending ua ca =
        .ok (p, ua.reverse ++ t.map (fun r => r.url),
             ca.reverse ++ (t.map (fun r => r.url)).filter b) := by
  intro t
  induction t with
  | nil =>
    intro pending ua ca b hb _
    refine ⟨pending, ?_⟩
    unfold mergeLoop
    simp
  | cons h rest ih =>
    intro pending ua ca b hb hnd
    have hnd2 := List.nodup_cons.mp (by rw [List.map_cons] at hnd; exact hnd)
    by_cases hh : pending.any (fun r => r.url = h.url) = true
    · have hbh : b h.url = true := by rw [← hb]; exact hh
      cases mode with
      | fail => exact absurd rfl hm
      | skip =>
        obtain ⟨p, hp⟩ := ih pending (h.url :: ua) (h.url :: ca) b hb hnd2.2
        refine ⟨p, ?_⟩
        unfold mergeLoop
        simp only [hh, if_true]
        rw [hp, List.map_cons, List.filter_cons_of_pos hbh]
        simp [List.reverse_cons, List.append_assoc]
      | overwrite =>
        have hb2 : ∀ z, (sessionMerge pending h).any (fun r => r.url = z) = b z := by
          intro z
          rw [any_url_sessionMerge, hb]
          by_cases hz : h.url = z
          · rw [← hz]
            simp [hbh]
          · simp [hz]
        obtain ⟨p, hp⟩ := ih (sessionMerge pending h) (h.url :: ua) (h.url :: ca) b hb2 hnd2.2
        refine ⟨p, ?_⟩
        unfold mergeLoop
        simp only [hh, if_true]
        rw [hp, List.map_cons, List.filter_cons_of_pos hbh]
        simp [List.reverse_cons, List.append_assoc]
    · have hbh : b h.url = false := by rw [← hb]; simpa using hh
      have hb2 : ∀ z, (sessionMerge pending h).any (fun r => r.url = z) =
          (b z || decide (h.url = z)) := by
        intro z
        rw [any_url_sessionMerge, hb]
      obtain ⟨p, hp⟩ :=
        ih (sessionMerge pending h) (h.url :: ua) ca (fun z => b z || decide (h.url = z))
          hb2 hnd2.2
      refine ⟨p, ?_⟩
      unfold mergeLoop
      simp only [hh, Bool.false_eq_true, if_false]
      rw [hp]
      have hfc : (rest.map (fun r => r.url)).filter (fun z => b z || decide (h.url = z)) =
          (rest.map (fun r => r.url)).filter b := by
        apply List.filter_congr
        intro z hz
        have hne : h.url ≠ z := fun he => hnd2.1 (he ▸ hz)
        simp [hne]
      rw [List.map_cons, List.filter_cons_of_neg (by simp [hbh]), hfc]
      simp [List.reverse_cons, List.append_assoc]

/-- Claim C6: for a url `u` present in both stores (with distinct source
urls, as the source's primary key guarantees): under OVERWRITE the
committed destination resolves `u` to the source's row; under SKIP it
keeps resolving `u` to its own row and `u` is reported among the
conflicts; under FAIL the merge raises `CacheMergeConflict` and the
committed destination is exactly the pre-merge state — nothing processed
in that run is committed. -/
theorem merge_resolves_conflicts_by_mode (s t : CacheState) (u : String)
    (hsu : s.any (fun r => r.url = u) = true)
    (htu : t.any (fun r => r.url = u) = true)
    (hnodup : (t.map (fun r => r.url)).Nodup) :
    ((HTTPCache.merge s t .overwrite).committed.find? (fun r => r.url = u) =
        t.find? (fun r => r.url = u)) ∧
    ((HTTPCache.merge s t .skip).committed.find? (fun r => r.url = u) =
        s.find? (fun r => r.url = u)) ∧
    (∀ urls confs, (HTTPCache.merge s t .skip).outcome = .ok (urls, confs) → u ∈ confs) ∧
    (HTTPCache.merge s t .fail).committed = s ∧
    (∃ e, (HTTPCache.merge s t .fail).outcome = .error e) := by
  refine ⟨?_, ?_, ?_, ?_, ?_⟩
  · unfold HTTPCache.merge
    cases hml : mergeLoop .overwrite t s [] [] with
    | error e =>
      obtain ⟨p, hp⟩ := mergeLoop_ok_accounting .overwrite (by decide) t s [] []
        (fun z => s.any (fun r => r.url = z)) (fun z => rfl) hnodup
      simp [hp] at hml
    | ok res =>
      obtain ⟨p, urls, confs⟩ := res
      simp only
      exact mergeLoop_overwrite_find u t s [] [] p urls confs htu hnodup hml
  · unfold HTTPCache.merge
    cases hml : mergeLoop .skip t s [] [] with
    | error e =>
      obtain ⟨p, hp⟩ := mergeLoop_ok_accounting .skip (by decide) t s [] []
        (fun z => s.any (fun r => r.url = z)) (fun z => rfl) hnodup
      simp [hp] at hml
    | ok res =>
      obtain ⟨p, urls, confs⟩ := res
      simp only
      exact mergeLoop_skip_find u t s [] [] p urls confs hsu hml
  · intro urls confs hout
    obtain ⟨p, hp⟩ := mergeLoop_ok_accounting .skip (by decide) t s [] []
      (fun z => s.any (fun r => r.url = z)) (fun z => rfl) hnodup
    unfold HTTPCache.merge at hout
    rw [hp] at hout
    simp only [List.reverse_nil, List.nil_append, Except.ok.injEq, Prod.mk.injEq] at hout
    obtain ⟨-, hconfs⟩ := hout
    rw [← hconfs]
    obtain ⟨r, hr, hru⟩ := List.any_eq_true.mp htu
    have hru2 : r.url = u := by simpa using hru
    apply List.mem_filter.mpr
    exact ⟨List.mem_map.mpr ⟨r, hr, hru2⟩, hsu⟩
  · obtain ⟨r, hr, hru⟩ := List.any_eq_true.mp htu
    have hru2 : r.url = u := by simpa using hru
    obtain ⟨e, he⟩ := mergeLoop_fail_error t s [] [] ⟨r, hr, by rw [hru2]; exact hsu⟩
    unfold HTTPCache.merge
    rw [he]
  · obtain ⟨r, hr, hru⟩ := List.any_eq_true.mp htu
    have hru2 : r.url = u := by simpa using hru
    obtain ⟨e, he⟩ := mergeLoop_fail_error t s [] [] ⟨r, hr, by rw [hru2]; exact hsu⟩
    refine ⟨e, ?_⟩
    unfold HTTPCache.merge
    rw [he]

/-- Claim C6 (witness): the reference scenario — destination
`"x" → [1]`, source `"x" → [2]` — evaluated under all three modes. -/
theorem merge_resolves_conflicts_by_mode_witness :
    ((HTTPCache.merge destOld srcNew .overwrite).committed.find? (fun r => r.url = "x") =
        srcNew.find? (fun r => r.url = "x")) ∧
    ((HTTPCache.merge destOld srcNew .skip).committed.find? (fun r => r.url = "x") =
        destOld.find? (fun r => r.url = "x")) ∧
    "x" ∈ (["x"] : List String) ∧
    (HTTPCache.merge destOld srcNew .fail).committed = destOld := by
  have h := merge_resolves_conflicts_by_mode destOld srcNew "x" rfl rfl (by decide)
  exact ⟨h.1, h.2.1, h.2.2.1 ["x"] ["x"] rfl, h.2.2.2.1⟩

/-- Claim C7 (amended): for any non-fail merge of a source with distinct
urls, `merged_urls` contains every url of the source — each url is
appended before the conflict check, so a url skipped under SKIP mode is
included too — while `conflict_urls` contains exactly the source urls
that already existed in the destination, in source order. -/
theorem merge_urls_and_conflicts_accounting (s t : CacheState) (mode : ConflictMode)
    (hmode : mode ≠ ConflictMode.fail) (hnodup : (t.map (fun r => r.url)).Nodup) :
    (HTTPCache.merge s t mode).outcome =
      .ok (t.map (fun r => r.url),
           (t.map (fun r => r.url)).filter (fun z => s.any (fun r => r.url = z))) := by
  obtain ⟨p, hp⟩ := mergeLoop_ok_accounting mode hmode t s [] []
    (fun z => s.any (fun r => r.url = z)) (fun z => rfl) hnodup
  unfold HTTPCache.merge
  rw [hp]
  simp

/-- Claim C7 (witness for the amended theorem): on the reference
scenario under SKIP mode, the skipped url "x" is reported both in
`merged_urls` and in `conflict_urls`. -/
theorem merge_urls_and_conflicts_accounting_witness :
    (HTTPCache.merge destOld srcNew .skip).outcome = .ok (["x"], ["x"]) := by
  have h := merge_urls_and_conflicts_accounting destOld srcNew .skip (by decide)
    (by decide)
  exact h.trans rfl

end OnHttpResp

